import Mathlib

/-!
Verification of the feishu-codex-bridge message-triage and
conversation-orchestration pipeline against its design document.

The Go sources are shallowly embedded: pure functions become Lean
functions, repository (SQL) calls become explicit `Except`-valued
parameters, `time.Time` values become integer timestamps, and the
per-chat mutable state of the conversation service becomes explicit
state passing over a step function.
-/

namespace Bridge

/-! ### Basic string machinery

Go's `strings.Contains` / `strings.HasPrefix` modelled over `List Char`.
Case folding models `strings.ToLower` (ASCII range, which is what the
trigger keywords in this code base use). -/

/-- Does a list start with a needle: `listStartsWith needle hay` asks does `hay` start with `needle`?
Models Go `strings.HasPrefix(hay, needle)`. -/
def listStartsWith : List Char → List Char → Bool
  | [], _ => true
  | _ :: _, [] => false
  | a :: as, b :: bs => a = b && listStartsWith as bs

/-- Substring test: `listContainsSub hay needle` asks does `needle` occur contiguously in `hay`?
Models Go `strings.Contains(hay, needle)`. -/
def listContainsSub : List Char → List Char → Bool
  | [], needle => needle.isEmpty
  | h :: t, needle => listStartsWith needle (h :: t) || listContainsSub t needle

/-- Go `strings.Contains` on strings. -/
def strContains (hay needle : String) : Bool :=
  listContainsSub hay.toList needle.toList

/-! ### Triage router (C4 of the spec)

`src/internal/biz/domain`: `TriggerKeyword` rows; `src/internal/data/buffer.go`:
`MatchKeyword` iterates the keyword rows as returned by `GetKeywords`, i.e.
ordered by `priority DESC, keyword ASC`; `src/internal/biz/usecase/buffer.go`:
`ShouldProcessImmediately`; `src/internal/server/feishu.go`: the triage
portion of `handleMessage`. Repository calls that can fail are passed in as
`Except String` values. -/

/-- The `domain.TriggerKeyword` row (id and created_at omitted: never read by triage). -/
structure TriggerKeyword where
  Keyword : String
  Priority : Int
  deriving Repr, DecidableEq

/-- The `domain.ChatType` string enumeration. -/
inductive ChatType
  | group
  | p2p
  deriving Repr, DecidableEq

/-- The data layer `bufferRepo.MatchKeyword` (src/internal/data/buffer.go): first keyword in
the stored order (priority DESC, keyword ASC) whose lowercased form is a
substring of the lowercased content. The keyword list is the rows
`GetKeywords` returns. -/
def MatchKeyword (keywords : List TriggerKeyword) (content : String) : Option TriggerKeyword :=
  match keywords with
  | [] => none
  | kw :: rest =>
    if strContains content.toLower kw.Keyword.toLower then some kw
    else MatchKeyword rest content

/-- Triage gate `BufferUsecase.ShouldProcessImmediately` (src/internal/biz/usecase/buffer.go).
`inWhitelist` is the result of `bufferRepo.IsInWhitelist`, `matchedKeyword`
the result of `bufferRepo.MatchKeyword`; `.error` models a non-nil Go error. -/
def ShouldProcessImmediately (mentionsBot : Bool)
    (inWhitelist : Except String Bool)
    (matchedKeyword : Except String (Option TriggerKeyword)) : Bool × String :=
  if mentionsBot then (true, "mentioned")
  else
    match inWhitelist with
    | .ok true => (true, "whitelist")
    | _ =>
      match matchedKeyword with
      | .ok (some kw) =>
        if kw.Priority ≥ 2 then (true, "keyword:" ++ kw.Keyword) else (false, "")
      | _ => (false, "")

/-- Outcome of the triage portion of `FeishuServer.handleMessage`. -/
inductive TriageDecision
  | immediate (reason : String)
  | buffered
  deriving Repr, DecidableEq

/-- True when a triage decision is "process now" rather than "buffer". -/
def TriageDecision.isImmediate : TriageDecision → Bool
  | .immediate _ => true
  | .buffered => false

/-- Triage portion of `FeishuServer.handleMessage` (src/internal/server/feishu.go
lines 124-145): group chats consult `ShouldProcessImmediately` and are buffered
on a false result; p2p chats skip the gate and are handed to the conversation
service directly (no reason string is produced for them). -/
def handleMessageTriage (chatType : ChatType) (mentionsBot : Bool)
    (inWhitelist : Except String Bool)
    (matchedKeyword : Except String (Option TriggerKeyword)) : TriageDecision :=
  if chatType = ChatType.group then
    match ShouldProcessImmediately mentionsBot inWhitelist matchedKeyword with
    | (true, reason) => .immediate reason
    | (false, _) => .buffered
  else .immediate ""

/-- The spec's ordered triage rules (spec section 4.4), written from the spec
text for comparison with the implementation: mentions first, then whitelist,
then a keyword match of priority at least 2 (case-insensitive substring over
the priority-ordered rows), then buffer for groups / immediate for p2p. -/
def triageSpecRules (chatType : ChatType) (mentionsBot whitelisted : Bool)
    (keywords : List TriggerKeyword) (content : String) : TriageDecision :=
  if mentionsBot then .immediate "mentioned"
  else if whitelisted then .immediate "whitelist"
  else
    match keywords.find? (fun kw => strContains content.toLower kw.Keyword.toLower) with
    | some kw =>
      if kw.Priority ≥ 2 then .immediate ("keyword:" ++ kw.Keyword)
      else if chatType = ChatType.group then .buffered else .immediate ""
    | none => if chatType = ChatType.group then .buffered else .immediate ""



/-! ### History assembler: message type and truncation (C3 of the spec)

The `domain.Message` value type lives in internal/biz/domain/message.go,
whose text is bundled into src/cmd/bridge/main.go (lines 427-456, after the
document separator); every algorithm over it below is translated from the Go
sources.  Times are integer milliseconds (the platform's authoritative
timestamp unit). -/

/-- Entity `domain.Message` (internal/biz/domain/message.go, bundled in
src/cmd/bridge/main.go lines 431-441), fields in source order; `time.Time`
becomes the platform's integer millisecond timestamp. -/
structure Message where
  ID : String := ""
  ChatID : String := ""
  Content : String := ""
  SenderID : String := ""
  SenderName : String := ""
  MsgType : String := "text"
  CreateTime : Int := 0
  IsBot : Bool := false
  deriving Repr, DecidableEq

/-- Method `Message.IsAfter` (internal/biz/domain/message.go, bundled in
src/cmd/bridge/main.go line 449): strict `m.CreateTime.After(t)`.  The
sibling helpers `IsFromBot` and `IsBefore` are unused by the code paths
embedded here. -/
def Message.IsAfter (m : Message) (t : Int) : Bool :=
  m.CreateTime > t

/-- Configuration `usecase.PromptConfig` (src/internal/biz/usecase/context_builder.go).
Counts are Go ints; `MaxHistoryMinutes` is converted to milliseconds when
compared against `CreateTime`. -/
structure PromptConfig where
  SystemPrompt : String := ""
  HistoryMarker : String := ""
  CurrentMarker : String := ""
  MemberListHeader : String := ""
  MaxHistoryCount : Int := 0
  MaxHistoryMinutes : Int := 0
  deriving Repr, DecidableEq

/-- Truncation `ContextBuilderUsecase.truncateHistory`
(src/internal/biz/usecase/context_builder.go lines 235-267).  `now` stands for
`time.Now()`; the Go cutoff `now.Add(-MaxHistoryMinutes*time.Minute)` becomes
`now - MaxHistoryMinutes * 60000` milliseconds. -/
def truncateHistory (now : Int) (messages : List Message) (cfg : PromptConfig) :
    List Message :=
  if messages.isEmpty then messages
  else
    let n : Int := messages.length
    let recentCount : Int :=
      if cfg.MaxHistoryCount ≤ 0 ∨ cfg.MaxHistoryCount > n then n else cfg.MaxHistoryCount
    let olderMessages := messages.take (n - recentCount).toNat
    let recentMessages := messages.drop (n - recentCount).toNat
    let extraMessages :=
      if cfg.MaxHistoryMinutes > 0 ∧ ¬olderMessages.isEmpty then
        let cutoffTime := now - cfg.MaxHistoryMinutes * 60000
        olderMessages.filter (fun m => m.CreateTime > cutoffTime)
      else []
    extraMessages ++ recentMessages

/-- The truncation algorithm exactly as the claim states it: unconditionally
keep the tail `N = MaxHistoryCount` (all, with no further filtering, when
`N ≤ 0` or `N > len`), and keep from the older prefix every message with
`create_time > now - MaxHistoryMinutes`. -/
def truncateHistorySpecClaim (now : Int) (messages : List Message) (cfg : PromptConfig) :
    List Message :=
  let n : Int := messages.length
  if cfg.MaxHistoryCount ≤ 0 ∨ cfg.MaxHistoryCount > n then messages
  else
    (messages.take (n - cfg.MaxHistoryCount).toNat).filter
        (fun m => m.CreateTime > now - cfg.MaxHistoryMinutes * 60000)
      ++ messages.drop (n - cfg.MaxHistoryCount).toNat

/-- The amended truncation rule: as the claim states it, except that when
`MaxHistoryMinutes ≤ 0` the code keeps nothing of the older prefix instead of
applying the `create_time > now - minutes` predicate. -/
def truncateHistorySpecAmended (now : Int) (messages : List Message) (cfg : PromptConfig) :
    List Message :=
  let n : Int := messages.length
  if cfg.MaxHistoryCount ≤ 0 ∨ cfg.MaxHistoryCount > n then messages
  else
    (if cfg.MaxHistoryMinutes > 0 then
      (messages.take (n - cfg.MaxHistoryCount).toNat).filter
        (fun m => m.CreateTime > now - cfg.MaxHistoryMinutes * 60000)
    else []) ++ messages.drop (n - cfg.MaxHistoryCount).toNat


/-! ### Conversation history slicing and the resumed-thread prompt (C3) -/

/-- The `domain.Member` value object. -/
structure Member where
  UserID : String := ""
  Name : String := ""
  deriving Repr, DecidableEq

/-- The `domain.Conversation` aggregate (src/internal/biz/domain/conversation.go);
`Current = none` models a nil pointer. -/
structure Conversation where
  ChatID : String := ""
  ChatType : ChatType := ChatType.group
  Members : List Member := []
  History : List Message := []
  Current : Option Message := none
  deriving Repr, DecidableEq

/-- The inline current-message guard `c.Current == nil || m.ID != c.Current.ID`
used by the history utilities in conversation.go. -/
def Conversation.notCurrentID (c : Conversation) (m : Message) : Bool :=
  match c.Current with
  | none => true
  | some cur => m.ID ≠ cur.ID

/-- History slicing `Conversation.HistorySinceExcludingCurrent` (conversation.go lines 49-57). -/
def Conversation.HistorySinceExcludingCurrent (c : Conversation) (t : Int) : List Message :=
  c.History.filter (fun m => m.IsAfter t && c.notCurrentID m)

/-- Anchor slicing `Conversation.HistoryAfterMsgID` (conversation.go lines 61-90): empty or
absent anchor falls back to time-based filtering, otherwise the messages after
the first occurrence of the anchor id, still skipping the current message. -/
def Conversation.HistoryAfterMsgID (c : Conversation) (msgID : String)
    (fallbackTime : Int) : List Message :=
  if msgID = "" then c.HistorySinceExcludingCurrent fallbackTime
  else
    match c.History.findIdx? (fun m => m.ID = msgID) with
    | none => c.HistorySinceExcludingCurrent fallbackTime
    | some anchorIdx => (c.History.drop (anchorIdx + 1)).filter (fun m => c.notCurrentID m)

/-- Formatting `ContextBuilderUsecase.formatHistory` (context_builder.go lines 310-327). -/
def formatHistory (messages : List Message) (marker : String) : String :=
  marker ++ "\n" ++ String.join (messages.map (fun m =>
    if m.IsBot then "[You (bot)]: " ++ m.Content ++ "\n"
    else
      let name := if m.SenderName = "" then m.SenderID else m.SenderName
      "[" ++ name ++ "]: " ++ m.Content ++ "\n"))

/-- Formatting `ContextBuilderUsecase.formatCurrentMessage` (context_builder.go lines 329-339). -/
def formatCurrentMessage (msg : Message) (marker : String) : String :=
  let name := if msg.SenderName = "" then msg.SenderID else msg.SenderName
  if msg.SenderID ≠ "" then
    marker ++ "\n[Message from " ++ name ++ " (user_id: " ++ msg.SenderID ++ ")]:\n"
      ++ msg.Content
  else
    marker ++ "\n[Message from " ++ name ++ "]:\n" ++ msg.Content

/-- Prompt assembly `ContextBuilderUsecase.FormatForResumedThread` (context_builder.go lines
273-298): history slice after the resumption anchor, then the current message,
joined by a blank line; `lastReplyAt` is accepted and unused, as in the Go
signature. -/
def FormatForResumedThread (conv : Conversation) (lastProcessedMsgID : String)
    (lastMsgTime : Int) (lastReplyAt : Int) (cfg : PromptConfig) : String :=
  let recentHistory := conv.HistoryAfterMsgID lastProcessedMsgID lastMsgTime
  let parts : List String :=
    (if recentHistory.isEmpty then [] else [formatHistory recentHistory cfg.HistoryMarker]) ++
    (match conv.Current with
     | some cur => [formatCurrentMessage cur cfg.CurrentMarker]
     | none => [])
  String.intercalate "\n\n" parts

/-- The claim's anchor-resolution rule, written from the spec text: when
`last_processed_msg_id` is non-empty and occurs in the history, the messages
after that (first) occurrence; otherwise the messages with `create_time`
strictly greater than `last_msg_time`; either way the current message's id is
skipped, as the data-model invariant requires of history utilities. -/
def historyAfterAnchorSpec (c : Conversation) (msgID : String)
    (fallbackTime : Int) : List Message :=
  if msgID ≠ "" ∧ c.History.any (fun m => m.ID = msgID) then
    (c.History.drop (c.History.findIdx (fun m => m.ID = msgID) + 1)).filter
      (fun m => c.notCurrentID m)
  else
    c.History.filter (fun m => m.CreateTime > fallbackTime && c.notCurrentID m)


/-! ### Directive parsing (`ConversationService.parseResponse`, src/unnamed/part_015)

The Go code applies three regex replace-alls, in order, then `strings.TrimSpace`:
`\[REACTION:[^\]]+\]` (stripped), `\[MENTION:([^:]+):([^\]]+)\]` (submatches
collected as members, then stripped), `\[MENTION_ALL\]` (stripped).  Go's
`ReplaceAllString` and `FindAllStringSubmatch` both walk the text left to
right taking the leftmost match at each point and continuing after it; the
scanners below implement exactly that.  Since none of the three patterns
contains a quantifier that could run past a closing delimiter (`[^\]]+` stops
at the first `]`, `[^:]+` at the first `:`), leftmost-first matching
coincides with these deterministic scanners. -/

/-- The literal head of `\[REACTION:`. -/
def reactionPat : List Char := ['[', 'R', 'E', 'A', 'C', 'T', 'I', 'O', 'N', ':']

/-- The literal head of `\[MENTION:`. -/
def mentionPat : List Char := ['[', 'M', 'E', 'N', 'T', 'I', 'O', 'N', ':']

/-- The literal `\[MENTION_ALL\]`. -/
def mentionAllPat : List Char := ['[', 'M', 'E', 'N', 'T', 'I', 'O', 'N', '_', 'A', 'L', 'L', ']']

/-- Strip a literal pattern from the head of a text, giving the remainder. -/
def dropPre : List Char → List Char → Option (List Char)
  | [], s => some s
  | _ :: _, [] => none
  | p :: ps, c :: cs => if c = p then dropPre ps cs else none

/-- Scan to the first occurrence of `x`: returns the characters before it and
the remainder after it.  This is `[^x]*x` with the body returned. -/
def scanUntil (x : Char) : List Char → Option (List Char × List Char)
  | [] => none
  | c :: cs =>
    if c = x then some ([], cs)
    else
      match scanUntil x cs with
      | some (b, r) => some (c :: b, r)
      | none => none

/-- A `\[REACTION:[^\]]+\]` match at the head of the text: returns the
remainder after the match if there is one. -/
def reactionAt (s : List Char) : Option (List Char) :=
  match dropPre reactionPat s with
  | none => none
  | some rest =>
    match scanUntil ']' rest with
    | none => none
    | some (body, rest2) => if body.isEmpty then none else some rest2

/-- A `\[MENTION:([^:]+):([^\]]+)\]` match at the head of the text: returns
the two submatches and the remainder. -/
def mentionAt (s : List Char) : Option (List Char × List Char × List Char) :=
  match dropPre mentionPat s with
  | none => none
  | some rest =>
    match scanUntil ':' rest with
    | none => none
    | some (id, rest2) =>
      if id.isEmpty then none
      else
        match scanUntil ']' rest2 with
        | none => none
        | some (nm, rest3) => if nm.isEmpty then none else some (id, nm, rest3)

/-- Go `ReplaceAllString` of `\[REACTION:[^\]]+\]` with the empty string:
left-to-right scan removing every leftmost match. -/
def removeReactions (s : List Char) : List Char :=
  match s with
  | [] => []
  | c :: cs =>
    match h : reactionAt (c :: cs) with
    | some rest => removeReactions rest
    | none => c :: removeReactions cs
termination_by s.length
decreasing_by
  · have hdp : ∀ (p t r : List Char), dropPre p t = some r → r.length + p.length = t.length := by
      intro p
      induction p with
      | nil => intro t r hh; cases hh; simp
      | cons q qs ih =>
        intro t r hh
        cases t with
        | nil => cases hh
        | cons a as =>
          by_cases hc : a = q
          · simp only [dropPre, hc, if_true] at hh
            have := ih as r hh
            simp only [List.length_cons]
            omega
          · simp [dropPre, hc] at hh
    have hsu : ∀ (x : Char) (t b r : List Char),
        scanUntil x t = some (b, r) → b.length + r.length + 1 = t.length := by
      intro x t
      induction t with
      | nil => intro b r hh; cases hh
      | cons a as ih =>
        intro b r hh
        by_cases hc : a = x
        · simp only [scanUntil, hc, if_true] at hh
          cases hh
          simp
        · simp only [scanUntil, hc, if_false] at hh
          cases h2 : scanUntil x as with
          | none => simp [h2] at hh
          | some br =>
            obtain ⟨b0, r0⟩ := br
            simp only [h2] at hh
            cases hh
            have := ih _ _ h2
            simp only [List.length_cons]
            omega
    unfold reactionAt at h
    split at h
    · cases h
    · rename_i rest0 h1
      split at h
      · cases h
      · rename_i pr body rest2 h2
        split at h
        · cases h
        · injection h with h
          subst h
          have l1 := hdp _ _ _ h1
          have l2 := hsu _ _ _ _ h2
          simp only [reactionPat, List.length_cons, List.length_nil] at l1
          simp only [List.length_cons]
          omega
  · simp

/-- Go `FindAllStringSubmatch` plus `ReplaceAllString` of
`\[MENTION:([^:]+):([^\]]+)\]`: both walk the same leftmost matches, so a
single scan returns the stripped text together with the submatch pairs in
order of appearance. -/
def scanMentions (s : List Char) : List Char × List (List Char × List Char) :=
  match s with
  | [] => ([], [])
  | c :: cs =>
    match h : mentionAt (c :: cs) with
    | some (id, nm, rest) =>
      let p := scanMentions rest
      (p.1, (id, nm) :: p.2)
    | none =>
      let p := scanMentions cs
      (c :: p.1, p.2)
termination_by s.length
decreasing_by
  · have hdp : ∀ (p t r : List Char), dropPre p t = some r → r.length + p.length = t.length := by
      intro p
      induction p with
      | nil => intro t r hh; cases hh; simp
      | cons q qs ih =>
        intro t r hh
        cases t with
        | nil => cases hh
        | cons a as =>
          by_cases hc : a = q
          · simp only [dropPre, hc, if_true] at hh
            have := ih as r hh
            simp only [List.length_cons]
            omega
          · simp [dropPre, hc] at hh
    have hsu : ∀ (x : Char) (t b r : List Char),
        scanUntil x t = some (b, r) → b.length + r.length + 1 = t.length := by
      intro x t
      induction t with
      | nil => intro b r hh; cases hh
      | cons a as ih =>
        intro b r hh
        by_cases hc : a = x
        · simp only [scanUntil, hc, if_true] at hh
          cases hh
          simp
        · simp only [scanUntil, hc, if_false] at hh
          cases h2 : scanUntil x as with
          | none => simp [h2] at hh
          | some br =>
            obtain ⟨b0, r0⟩ := br
            simp only [h2] at hh
            cases hh
            have := ih _ _ h2
            simp only [List.length_cons]
            omega
    unfold mentionAt at h
    split at h
    · cases h
    · rename_i rest0 h1
      split at h
      · cases h
      · rename_i pr id0 rest2 h2
        split at h
        · cases h
        · split at h
          · cases h
          · rename_i pr2 nm0 rest3 h3
            split at h
            · cases h
            · injection h with h
              obtain ⟨rfl, rfl, rfl⟩ : id0 = id ∧ nm0 = nm ∧ rest3 = rest := by
                cases h
                exact ⟨rfl, rfl, rfl⟩
              have l1 := hdp _ _ _ h1
              have l2 := hsu _ _ _ _ h2
              have l3 := hsu _ _ _ _ h3
              simp only [mentionPat, List.length_cons, List.length_nil] at l1
              simp only [List.length_cons]
              omega
  · simp

/-- Go `ReplaceAllString` of `\[MENTION_ALL\]` with the empty string. -/
def removeMentionAll (s : List Char) : List Char :=
  match s with
  | [] => []
  | c :: cs =>
    match h : dropPre mentionAllPat (c :: cs) with
    | some rest => removeMentionAll rest
    | none => c :: removeMentionAll cs
termination_by s.length
decreasing_by
  · have hdp : ∀ (p t r : List Char), dropPre p t = some r → r.length + p.length = t.length := by
      intro p
      induction p with
      | nil => intro t r hh; cases hh; simp
      | cons q qs ih =>
        intro t r hh
        cases t with
        | nil => cases hh
        | cons a as =>
          by_cases hc : a = q
          · simp only [dropPre, hc, if_true] at hh
            have := ih as r hh
            simp only [List.length_cons]
            omega
          · simp [dropPre, hc] at hh
    have l1 := hdp _ _ _ h
    simp only [mentionAllPat, List.length_cons, List.length_nil] at l1
    simp only [List.length_cons]
    omega
  · simp

/-- Go `unicode.IsSpace`: the Unicode White Space property. -/
def goIsSpace (c : Char) : Bool :=
  c.toNat = 9 ∨ c.toNat = 10 ∨ c.toNat = 11 ∨ c.toNat = 12 ∨ c.toNat = 13 ∨
  c.toNat = 32 ∨ c.toNat = 133 ∨ c.toNat = 160 ∨ c.toNat = 5760 ∨
  (8192 ≤ c.toNat ∧ c.toNat ≤ 8202) ∨ c.toNat = 8232 ∨ c.toNat = 8233 ∨
  c.toNat = 8239 ∨ c.toNat = 8287 ∨ c.toNat = 12288

/-- Drop the leading white space characters. -/
def dropLeadSpaces : List Char → List Char
  | [] => []
  | c :: cs => if goIsSpace c then dropLeadSpaces cs else c :: cs

/-- Go `strings.TrimSpace`: white space removed from both ends only. -/
def goTrimSpace (s : List Char) : List Char :=
  ((dropLeadSpaces (dropLeadSpaces s).reverse)).reverse

/-- Directive parser `ConversationService.parseResponse` (src/unnamed/part_015 lines 215-244):
strip reactions, collect and strip mentions, strip mention-alls, trim. -/
def parseResponse (response : String) : String × List Member :=
  let afterReaction := removeReactions response.toList
  let scanned := scanMentions afterReaction
  let afterAll := removeMentionAll scanned.1
  (String.mk (goTrimSpace afterAll),
   scanned.2.map (fun p => { UserID := String.mk p.1, Name := String.mk p.2 }))

/-- Reaction behaviour of `ConversationService.handleTurnComplete` (src/unnamed/part_015 lines
180-212), reaction behaviour: on a turn-complete event with a non-empty
buffered response the service adds the fixed reaction `DONE` to the
triggering message; `parseResponse` discards the types of any
`[REACTION:TYPE]` directives, so those types are never sent.  The returned
list is every reaction type passed to `AddReaction` for the turn. -/
def turnCompleteReactions (bufferedResponse : String) : List String :=
  if bufferedResponse = "" then [] else ["DONE"]

/-! ### A segment model of backend replies

To state "every directive token is stripped, every mention contributes a
member in order, the rest of the text survives", a backend reply is viewed as
a list of segments: plain text and the three directive forms.  `SegOK` is the
well-formedness that makes the decomposition unambiguous (payloads cannot
open another token or close their own early). -/

/-- One segment of a backend reply. -/
inductive ReplySeg
  | plain (s : String)
  | reaction (ty : String)
  | mention (id nm : String)
  | mentionAll
  deriving Repr, DecidableEq

/-- The characters a segment contributes to the raw backend reply. -/
def ReplySeg.renderL : ReplySeg → List Char
  | .plain s => s.toList
  | .reaction ty => reactionPat ++ ty.toList ++ [']']
  | .mention id nm => mentionPat ++ id.toList ++ ':' :: nm.toList ++ [']']
  | .mentionAll => mentionAllPat

/-- The raw backend reply of a segment list. -/
def renderSegsL (l : List ReplySeg) : List Char :=
  match l with
  | [] => []
  | sg :: rest => sg.renderL ++ renderSegsL rest

/-- The raw backend reply, as a string. -/
def renderSegs (l : List ReplySeg) : String :=
  String.mk (renderSegsL l)

/-- The plain text of a segment list: what remains once every directive
token is deleted in place. -/
def plainCharsL (l : List ReplySeg) : List Char :=
  match l with
  | [] => []
  | .plain s :: rest => s.toList ++ plainCharsL rest
  | _ :: rest => plainCharsL rest

/-- The raw submatch pairs of the mention directives, in order of appearance. -/
def segsMentionPairs (l : List ReplySeg) : List (List Char × List Char) :=
  l.filterMap (fun sg =>
    match sg with
    | .mention id nm => some (id.toList, nm.toList)
    | _ => none)

/-- The mention directives of a segment list, in order of appearance. -/
def segsMentions (l : List ReplySeg) : List Member :=
  l.filterMap (fun sg =>
    match sg with
    | .mention id nm => some { UserID := id, Name := nm }
    | _ => none)

/-- Is the segment a `[REACTION:...]` directive? -/
def ReplySeg.isReaction : ReplySeg → Bool
  | .reaction _ => true
  | _ => false

/-- Is the segment a `[MENTION:id:name]` directive? -/
def ReplySeg.isMention : ReplySeg → Bool
  | .mention _ _ => true
  | _ => false

/-- Well-formedness of a segment: plain text opens no token, a reaction type
is non-empty and does not close itself early, mention payloads are non-empty,
the id carries no `:` and neither payload contains `[` or closes early. -/
def SegOK : ReplySeg → Prop
  | .plain s => '[' ∉ s.toList
  | .reaction ty => ty.toList ≠ [] ∧ ']' ∉ ty.toList
  | .mention id nm => id.toList ≠ [] ∧ nm.toList ≠ [] ∧ ':' ∉ id.toList ∧
      '[' ∉ id.toList ∧ ']' ∉ nm.toList ∧ '[' ∉ nm.toList
  | .mentionAll => True

/-- Go `strings.TrimSpace` on strings. -/
def goTrimSpaceStr (s : String) : String :=
  String.mk (goTrimSpace s.toList)

/-! ### Conversation service chat state (src/unnamed/part_015)

The per-chat mutable `ChatState` and the four lock-guarded handler sections
(`HandleMessage` acceptance, the end of `processMessage`, `handleAgentDelta`,
`handleTurnComplete`) become a step function over explicit state; each
guarded section runs atomically, so a serialized event sequence is the
observable behaviour for one chat. -/

/-- The per-chat `ChatState` (src/unnamed/part_015 lines 31-38); the `strings.Builder`
buffer becomes a `String`. -/
structure ChatState where
  ThreadID : String := ""
  TurnID : String := ""
  MsgID : String := ""
  Processing : Bool := false
  Buffer : String := ""
  deriving Repr, DecidableEq

/-- The serialized events acting on one chat's state: an accepted-or-rejected
`HandleMessage` call, the asynchronous `processMessage` returning from
`convUC.Trigger` (with success flag and the thread/turn ids), an agent delta,
and a turn-complete notification. -/
inductive ChatEvent
  | handleMessage (msgID : String)
  | triggerReturn (ok : Bool) (threadID turnID : String)
  | agentDelta (threadID delta : String)
  | turnComplete (threadID : String)
  deriving Repr, DecidableEq

/-- The observable outcome of one event. -/
inductive ChatOutcome
  | accepted
  | busyError
  | replied (msgID text : String) (mentions : List Member)
  | noOutput
  deriving Repr, DecidableEq

/-- One step of the conversation service for a single chat
(src/unnamed/part_015): `HandleMessage` - past its filter gate, which is
modelled separately as `handleMessageGate` - rejects when `Processing` is
set, otherwise marks `Processing`, records the message id and resets the buffer;
the deferred tail of `processMessage` stores the thread/turn ids on success
and clears `Processing` in both outcomes; `handleAgentDelta` appends to the
buffer of the chat matching the thread id; `handleTurnComplete` snapshots the
buffer and emits the parsed reply, mutating nothing. -/
def stepChat (st : ChatState) (e : ChatEvent) : ChatState × ChatOutcome :=
  match e with
  | .handleMessage msgID =>
    if st.Processing then (st, .busyError)
    else ({ st with Processing := true, MsgID := msgID, Buffer := "" }, .accepted)
  | .triggerReturn ok threadID turnID =>
    if ok then
      ({ st with ThreadID := threadID, TurnID := turnID, Processing := false }, .noOutput)
    else ({ st with Processing := false }, .noOutput)
  | .agentDelta threadID delta =>
    if st.ThreadID = threadID then ({ st with Buffer := st.Buffer ++ delta }, .noOutput)
    else (st, .noOutput)
  | .turnComplete threadID =>
    if st.ThreadID = threadID then
      if st.Buffer = "" then (st, .noOutput)
      else (st, .replied st.MsgID (parseResponse st.Buffer).1 (parseResponse st.Buffer).2)
    else (st, .noOutput)

/-- Run a serialized event sequence, collecting the outcomes. -/
def runChat (st : ChatState) : List ChatEvent → ChatState × List ChatOutcome
  | [] => (st, [])
  | e :: es =>
    let r := stepChat st e
    let rest := runChat r.1 es
    (rest.1, r.2 :: rest.2)

/-! ### The handle-message filter gate and the digest scheduler (C7) -/

/-- Outcome of the gate at the top of `ConversationService.HandleMessage`
(src/unnamed/part_015 lines 79-95). -/
inductive GateOutcome
  | proceed
  | skippedNoFilter
  | skippedIrrelevant
  deriving Repr, DecidableEq

/-- The gate of `HandleMessage`: a group-chat message without a bot mention
is checked against the classifier when one is configured and otherwise
skipped outright ("No filter, skipping non-@ group message"); everything else
proceeds.  `filterSays` is the classifier verdict (an errored call only logs
and uses the returned `false`). -/
def handleMessageGate (filterEnabled filterSays : Bool) (chatType : ChatType)
    (mentionsBot : Bool) : GateOutcome :=
  if chatType = ChatType.group ∧ mentionsBot = false then
    if filterEnabled then
      if filterSays then .proceed else .skippedIrrelevant
    else .skippedNoFilter
  else .proceed

/-- The fields of the service `MessageRequest` that the gate reads. -/
structure MessageRequestM where
  ChatID : String := ""
  MsgID : String := ""
  Content : String := ""
  SenderID : String := ""
  SenderName : String := ""
  ChatType : ChatType := ChatType.p2p
  MentionsBot : Bool := false
  deriving Repr, DecidableEq

/-- The synthetic digest request the scheduler builds
(src/internal/service/scheduler.go lines 161-168): chat type group, sender
"system", and `MentionsBot` left at its zero value `false`. -/
def schedulerDigestRequest (chatID prompt : String) (ts : Int) : MessageRequestM :=
  { ChatID := chatID, MsgID := "digest_" ++ toString ts, Content := prompt,
    SenderID := "system", SenderName := "System Digest", ChatType := ChatType.group }

/-- What one `processWithCodex` run achieves for a chat's batch. -/
inductive DigestResult
  | turnStarted
  | droppedByGate
  | rejectedBusy
  | skippedByClassifier
  deriving Repr, DecidableEq

/-- Scheduler step `DigestScheduler.processWithCodex` (scheduler.go lines 133-182) composed
with the `HandleMessage` gate: when the classifier is enabled and says no,
the batch is marked processed and skipped; otherwise the digest request is
handed to `HandleMessage`, whose own gate decides; a busy chat returns the
"already processing" error to the scheduler.  The second component records
whether the batch is marked processed - which happens on every path. -/
def processWithCodex (filterEnabled schedulerFilterSays handleFilterSays busy : Bool)
    (chatID prompt : String) (ts : Int) : DigestResult × Bool :=
  if filterEnabled ∧ schedulerFilterSays = false then (.skippedByClassifier, true)
  else
    match handleMessageGate filterEnabled handleFilterSays
        (schedulerDigestRequest chatID prompt ts).ChatType
        (schedulerDigestRequest chatID prompt ts).MentionsBot with
    | .proceed => ((if busy then .rejectedBusy else .turnStarted), true)
    | _ => (.droppedByGate, true)

/-! ### Session freshness (src/internal/biz/domain/session.go, C8)

Time is modelled in minutes over a uniform 1440-minute day: `now` is given as
a (day, minute-of-day) pair so that Go's
`time.Date(now.Year(), now.Month(), now.Day(), ResetHour, 0, 0, 0, loc)`
becomes `nowDay * 1440 + ResetHour * 60`; `UpdatedAt` is an absolute minute
count; `IdleTimeout` is a duration in minutes. -/

/-- The `domain.SessionConfig` value object. -/
structure SessionConfig where
  IdleTimeout : Int := 0
  ResetHour : Int := -1
  deriving Repr, DecidableEq

/-- The `domain.Session` persisted entity. -/
structure Session where
  ChatID : String := ""
  ThreadID : String := ""
  CreatedAt : Int := 0
  UpdatedAt : Int := 0
  LastReplyAt : Int := 0
  LastMsgTime : Int := 0
  LastProcessedMsgID : String := ""
  deriving Repr, DecidableEq

/-- Freshness check `Session.IsFresh` (session.go lines 23-50): stale when idle beyond
`IdleTimeout` (if positive); with `ResetHour` in `[0, 24)`, stale when `now`
is strictly after today's reset instant and `UpdatedAt` strictly before it,
or `now` strictly before it and `UpdatedAt` strictly before the reset instant
minus 24 hours. -/
def Session.IsFresh (s : Session) (cfg : SessionConfig) (nowDay nowMin : Int) : Bool :=
  let now := nowDay * 1440 + nowMin
  if cfg.IdleTimeout > 0 ∧ now - s.UpdatedAt > cfg.IdleTimeout then false
  else
    if 0 ≤ cfg.ResetHour ∧ cfg.ResetHour < 24 then
      let resetTime := nowDay * 1440 + cfg.ResetHour * 60
      if now > resetTime ∧ s.UpdatedAt < resetTime then false
      else
        if now < resetTime ∧ s.UpdatedAt < resetTime - 1440 then false
        else true
    else true

/-- Freshness exactly as the claim states it, `now ≥ today's reset time`
included: stale iff idle-timed-out or (reset hour in range and (`now` at or
after today's reset with `UpdatedAt` before it, or `now` before it with
`UpdatedAt` before it minus 24 hours)). -/
def isFreshSpecClaim (cfg : SessionConfig) (nowDay nowMin updatedAt : Int) : Bool :=
  let now := nowDay * 1440 + nowMin
  let resetTime := nowDay * 1440 + cfg.ResetHour * 60
  if (cfg.IdleTimeout > 0 ∧ now - updatedAt > cfg.IdleTimeout) ∨
      (0 ≤ cfg.ResetHour ∧ cfg.ResetHour < 24 ∧
        ((now ≥ resetTime ∧ updatedAt < resetTime) ∨
         (now < resetTime ∧ updatedAt < resetTime - 1440))) then false
  else true

/-- The amended freshness rule: as the claim, but the first daily-reset
condition requires `now` strictly after today's reset time. -/
def isFreshSpecAmended (cfg : SessionConfig) (nowDay nowMin updatedAt : Int) : Bool :=
  let now := nowDay * 1440 + nowMin
  let resetTime := nowDay * 1440 + cfg.ResetHour * 60
  if (cfg.IdleTimeout > 0 ∧ now - updatedAt > cfg.IdleTimeout) ∨
      (0 ≤ cfg.ResetHour ∧ cfg.ResetHour < 24 ∧
        ((now > resetTime ∧ updatedAt < resetTime) ∨
         (now < resetTime ∧ updatedAt < resetTime - 1440))) then false
  else true

/-- The claim's worked example: history `[M1 .. M5]`, current message `M6`. -/
def exampleResumedConv : Conversation :=
  { History :=
      [ { ID := "M1", SenderName := "Alice", Content := "msg one", CreateTime := 100 },
        { ID := "M2", SenderName := "Bob", Content := "msg two", CreateTime := 200 },
        { ID := "M3", SenderName := "Carol", Content := "msg three", CreateTime := 300 },
        { ID := "M4", SenderName := "Dave", Content := "msg four", CreateTime := 400 },
        { ID := "M5", SenderName := "Eve", Content := "msg five", CreateTime := 500 } ],
    Current := some { ID := "M6", SenderID := "u6", SenderName := "Frank",
                      Content := "hello again", CreateTime := 600 } }

/-- The default history/current markers of `DefaultPromptConfig`
(context_builder.go lines 152-153); the other fields are irrelevant for the
resumed-thread prompt. -/
def exampleResumedCfg : PromptConfig :=
  { HistoryMarker := "[Recent chat messages - for reference]",
    CurrentMarker := "[Current message]" }

/-! ## Theorems -/

/-- The partial find `findIdx?` is `findIdx` guarded by `any`. -/
theorem findIdx?_eq_if_any (p : Message → Bool) (l : List Message) :
    l.findIdx? p = if l.any p then some (l.findIdx p) else none := by
  induction l with
  | nil => rfl
  | cons a t ih =>
    by_cases h : p a
    · simp [List.findIdx?_cons, List.findIdx_cons, h]
    · by_cases h2 : t.any p <;>
        simp [List.findIdx?_cons, List.findIdx_cons, h, ih, h2]

/-- The data-layer keyword loop is `List.find?` of the substring test. -/
theorem matchKeyword_eq_find (keywords : List TriggerKeyword) (content : String) :
    MatchKeyword keywords content
      = keywords.find? (fun kw => strContains content.toLower kw.Keyword.toLower) := by
  induction keywords with
  | nil => rfl
  | cons kw rest ih =>
    unfold MatchKeyword
    rw [List.find?_cons]
    by_cases h : strContains content.toLower kw.Keyword.toLower
    · simp [h]
    · simp [h, ih]

/-- C1: for every incoming message the triage decision of
`FeishuServer.handleMessage` with the repository answering normally (whitelist
membership `wl`, keyword match computed by `MatchKeyword` over the stored
rows) follows the spec's ordered rules: mention, then whitelist, then a
priority-at-least-2 keyword match (case-insensitive substring, higher-priority
rows first), then buffer for group chats and immediate for p2p chats.  For
group chats the decision agrees with the rules reason included; p2p chats skip
the gate entirely, so they are always immediate and the code materializes no
reason string for them; the immediate/buffer decision agrees with the rules
for every chat type. -/
theorem triage_follows_ordered_rules :
    (∀ (mentionsBot wl : Bool) (keywords : List TriggerKeyword) (content : String),
      handleMessageTriage ChatType.group mentionsBot (.ok wl) (.ok (MatchKeyword keywords content))
        = triageSpecRules ChatType.group mentionsBot wl keywords content) ∧
    (∀ (mentionsBot : Bool) (inWhitelist : Except String Bool)
        (matchedKeyword : Except String (Option TriggerKeyword)),
      handleMessageTriage ChatType.p2p mentionsBot inWhitelist matchedKeyword
        = TriageDecision.immediate "") ∧
    (∀ (chatType : ChatType) (mentionsBot wl : Bool) (keywords : List TriggerKeyword)
        (content : String),
      (handleMessageTriage chatType mentionsBot (.ok wl)
          (.ok (MatchKeyword keywords content))).isImmediate
        = (triageSpecRules chatType mentionsBot wl keywords content).isImmediate) := by
  have hgroup : ∀ (mentionsBot wl : Bool) (keywords : List TriggerKeyword) (content : String),
      handleMessageTriage ChatType.group mentionsBot (.ok wl) (.ok (MatchKeyword keywords content))
        = triageSpecRules ChatType.group mentionsBot wl keywords content := by
    intro mentionsBot wl keywords content
    unfold handleMessageTriage triageSpecRules ShouldProcessImmediately
    rw [matchKeyword_eq_find]
    cases mentionsBot <;> cases wl <;>
      cases h : keywords.find? (fun kw => strContains content.toLower kw.Keyword.toLower) <;>
      simp [h]
    all_goals rename_i kw; by_cases hp : (2 : Int) ≤ kw.Priority <;> simp [hp]
  refine ⟨hgroup, ?_, ?_⟩
  · intro mentionsBot inWhitelist matchedKeyword
    rfl
  · intro chatType mentionsBot wl keywords content
    cases chatType
    · rw [hgroup]
    · unfold triageSpecRules handleMessageTriage
      cases mentionsBot <;> cases wl <;>
        cases h : keywords.find? (fun kw => strContains content.toLower kw.Keyword.toLower) <;>
        simp [h, TriageDecision.isImmediate]
      all_goals rename_i kw
      all_goals by_cases hp : (2 : Int) ≤ kw.Priority <;> simp [hp, TriageDecision.isImmediate]

/-- C10: storage errors during triage are swallowed, never surfaced: an
errored whitelist lookup is treated exactly like a successful "not in
whitelist" answer, an errored keyword lookup exactly like "no keyword
matched", and a group message without a bot mention whose two lookups both
error is buffered (the gate returns `(false, "")`), not rejected. -/
theorem triage_storage_errors_swallowed :
    (∀ (mentionsBot : Bool) (e : String)
        (matchedKeyword : Except String (Option TriggerKeyword)),
      ShouldProcessImmediately mentionsBot (.error e) matchedKeyword
        = ShouldProcessImmediately mentionsBot (.ok false) matchedKeyword) ∧
    (∀ (mentionsBot : Bool) (inWhitelist : Except String Bool) (e : String),
      ShouldProcessImmediately mentionsBot inWhitelist (.error e)
        = ShouldProcessImmediately mentionsBot inWhitelist (.ok none)) ∧
    (∀ (e1 e2 : String),
      ShouldProcessImmediately false (.error e1) (.error e2) = (false, "") ∧
      handleMessageTriage ChatType.group false (.error e1) (.error e2)
        = TriageDecision.buffered) := by
  refine ⟨fun mentionsBot e matchedKeyword => rfl, fun mentionsBot inWhitelist e => ?_,
    fun e1 e2 => ⟨rfl, rfl⟩⟩
  unfold ShouldProcessImmediately
  cases inWhitelist with
  | error e0 => rfl
  | ok b => cases b <;> rfl

/-- C2 counterexample: with `MaxHistoryMinutes = 0` the claim's rule keeps an
older message whose `create_time` exceeds `now - 0`, but the code only applies
the time-window filter when `MaxHistoryMinutes > 0` and otherwise drops the
whole older prefix.  At `now = 0` with history `[create_time 1, create_time 0]`
and `N = 1` the code returns only the tail while the claim's rule returns both
messages. -/
theorem truncateHistory_claim_counterexample :
    truncateHistory 0 [{ CreateTime := 1 }, { CreateTime := 0 }]
        { MaxHistoryCount := 1, MaxHistoryMinutes := 0 }
      = [{ CreateTime := 0 }] ∧
    truncateHistorySpecClaim 0 [{ CreateTime := 1 }, { CreateTime := 0 }]
        { MaxHistoryCount := 1, MaxHistoryMinutes := 0 }
      = [{ CreateTime := 1 }, { CreateTime := 0 }] ∧
    truncateHistory 0 [{ CreateTime := 1 }, { CreateTime := 0 }]
        { MaxHistoryCount := 1, MaxHistoryMinutes := 0 }
      ≠ truncateHistorySpecClaim 0 [{ CreateTime := 1 }, { CreateTime := 0 }]
        { MaxHistoryCount := 1, MaxHistoryMinutes := 0 } := by
  refine ⟨?_, ?_, ?_⟩ <;> decide

/-- C2 (amended): `truncateHistory` computes the amended rule, its output
never exceeds the input in length, the output is a subsequence of the input
(chronological order preserved), and the last `min(N, len)` input messages are
always a suffix of the output. -/
theorem truncateHistory_amended (now : Int) (messages : List Message) (cfg : PromptConfig) :
    truncateHistory now messages cfg = truncateHistorySpecAmended now messages cfg ∧
    (truncateHistory now messages cfg).length ≤ messages.length ∧
    List.Sublist (truncateHistory now messages cfg) messages ∧
    ∃ pre, truncateHistory now messages cfg
      = pre ++ messages.drop (messages.length - min cfg.MaxHistoryCount.toNat messages.length) := by
  have hshape : ∀ (msgs : List Message) (k : Nat) (extra : List Message),
      List.Sublist extra (msgs.take k) → List.Sublist (extra ++ msgs.drop k) msgs := by
    intro msgs k extra hx
    have h2 := List.Sublist.append hx (List.Sublist.refl (msgs.drop k))
    simpa [List.take_append_drop] using h2
  have heq : truncateHistory now messages cfg = truncateHistorySpecAmended now messages cfg := by
    simp only [truncateHistory, truncateHistorySpecAmended]
    by_cases hemp : messages.isEmpty
    · have hnil : messages = [] := List.isEmpty_iff.mp hemp
      subst hnil
      simp
    · simp only [hemp, if_false]
      by_cases hN : cfg.MaxHistoryCount ≤ 0 ∨ cfg.MaxHistoryCount > (messages.length : Int)
      · simp [hN]
      · simp only [hN, if_false]
        by_cases hm : cfg.MaxHistoryMinutes > 0
        · by_cases ho : (messages.take (((messages.length : Int) - cfg.MaxHistoryCount)).toNat).isEmpty
          · have hnil2 := List.isEmpty_iff.mp ho
            simp [hm, ho, hnil2]
          · simp [hm, ho]
        · simp [hm]
  refine ⟨heq, ?_, ?_, ?_⟩
  case _ =>
    have hsub : List.Sublist (truncateHistory now messages cfg) messages := by
      simp only [truncateHistory]
      split
      · exact List.Sublist.refl _
      · refine hshape _ _ _ ?_
        repeat' split
        all_goals first
          | exact List.filter_sublist _
          | exact List.nil_sublist _
    exact hsub.length_le
  case _ =>
    simp only [truncateHistory]
    split
    · exact List.Sublist.refl _
    · refine hshape _ _ _ ?_
      repeat' split
      all_goals first
        | exact List.filter_sublist _
        | exact List.nil_sublist _
  case _ =>
    by_cases hemp : messages.isEmpty
    · have hnil : messages = [] := List.isEmpty_iff.mp hemp
      subst hnil
      exact ⟨[], by simp [truncateHistory]⟩
    · by_cases hN : cfg.MaxHistoryCount ≤ 0 ∨ cfg.MaxHistoryCount > (messages.length : Int)
      · rcases hN with hN0 | hNbig
        · have hdrop : messages.length - min cfg.MaxHistoryCount.toNat messages.length
              = messages.length := by omega
          exact ⟨truncateHistory now messages cfg, by rw [hdrop]; simp⟩
        · have hres : truncateHistory now messages cfg = messages := by
            simp only [truncateHistory, truncateHistorySpecAmended] at *
            simp [hemp, hNbig, Int.sub_self]
          have hdrop : messages.length - min cfg.MaxHistoryCount.toNat messages.length = 0 := by
            omega
          exact ⟨[], by rw [hres, hdrop]; simp⟩
      · have hidx : (((messages.length : Int) - cfg.MaxHistoryCount)).toNat
            = messages.length - min cfg.MaxHistoryCount.toNat messages.length := by
          omega
        refine ⟨if cfg.MaxHistoryMinutes > 0 ∧
            ¬(messages.take (((messages.length : Int) - cfg.MaxHistoryCount)).toNat).isEmpty then
            (messages.take (((messages.length : Int) - cfg.MaxHistoryCount)).toNat).filter
              (fun m => m.CreateTime > now - cfg.MaxHistoryMinutes * 60000)
          else [], ?_⟩
        simp only [truncateHistory, hemp, if_false, hN]
        rw [hidx]
        simp

/-- C3: the resumed-thread history section is exactly the history strictly
after the anchor - after the first occurrence of a non-empty
`last_processed_msg_id` when it appears in the history, otherwise the messages
newer than `last_msg_time` - always skipping the current message's id; and on
the worked example (history `[M1 .. M5]`, anchor `M3`, current `M6`) the
complete resumed prompt lists exactly `M4`, `M5` and then `M6` as the current
message. -/
theorem resumed_thread_history_after_anchor :
    (∀ (c : Conversation) (msgID : String) (fallbackTime : Int),
      c.HistoryAfterMsgID msgID fallbackTime = historyAfterAnchorSpec c msgID fallbackTime) ∧
    FormatForResumedThread exampleResumedConv "M3" 0 0 exampleResumedCfg
      = "[Recent chat messages - for reference]\n[Dave]: msg four\n[Eve]: msg five\n\n\n[Current message]\n[Message from Frank (user_id: u6)]:\nhello again" := by
  refine ⟨?_, by decide⟩
  intro c msgID fallbackTime
  unfold Conversation.HistoryAfterMsgID historyAfterAnchorSpec
    Conversation.HistorySinceExcludingCurrent
  by_cases h0 : msgID = ""
  · simp [h0, Message.IsAfter]
  · rw [findIdx?_eq_if_any]
    by_cases h1 : c.History.any (fun m => m.ID = msgID)
    · simp [h0, h1]
    · simp [h0, h1, Message.IsAfter]

/-! Scanner-level facts used to settle the directive-parsing claims. -/

theorem dropPre_self (p r : List Char) : dropPre p (p ++ r) = some r := by
  induction p with
  | nil => rfl
  | cons q qs ih => simp [dropPre, ih]

theorem scanUntil_mk {x : Char} {b : List Char} (r : List Char) (hb : x ∉ b) :
    scanUntil x (b ++ x :: r) = some (b, r) := by
  induction b with
  | nil => simp [scanUntil]
  | cons c cs ih =>
    have hc : c ≠ x := fun hcx => hb (hcx ▸ List.mem_cons_self c cs)
    have ih2 := ih (fun hx => hb (List.mem_cons_of_mem c hx))
    simp [scanUntil, hc, ih2]

theorem reactionAt_cons_ne {c : Char} (l : List Char) (h : c ≠ '[') :
    reactionAt (c :: l) = none := by
  unfold reactionAt
  rw [show dropPre reactionPat (c :: l) = none from by simp [reactionPat, dropPre, h]]

theorem reactionAt_brM (l : List Char) : reactionAt ('[' :: 'M' :: l) = none := by
  unfold reactionAt
  rw [show dropPre reactionPat ('[' :: 'M' :: l) = none from by simp [reactionPat, dropPre]]

theorem reactionAt_tok {ty : List Char} (rest : List Char) (h1 : ty ≠ [])
    (h2 : ']' ∉ ty) :
    reactionAt (reactionPat ++ (ty ++ ']' :: rest)) = some rest := by
  unfold reactionAt
  simp [dropPre_self, scanUntil_mk rest h2, List.isEmpty_iff, h1]

theorem removeReactions_cons (c : Char) (l : List Char) :
    removeReactions (c :: l) = match reactionAt (c :: l) with
      | some rest => removeReactions rest
      | none => c :: removeReactions l := by
  rw [removeReactions]
  rcases hr : reactionAt (c :: l) with _ | rest <;> simp [hr]

theorem rr_some {s r : List Char} (h : reactionAt s = some r) :
    removeReactions s = removeReactions r := by
  cases s with
  | nil => simp [reactionAt, reactionPat, dropPre] at h
  | cons c cs => rw [removeReactions_cons, h]

theorem rr_none {c : Char} {l : List Char} (h : reactionAt (c :: l) = none) :
    removeReactions (c :: l) = c :: removeReactions l := by
  rw [removeReactions_cons, h]

theorem rr_plain (s rest : List Char) (h : ∀ c ∈ s, c ≠ '[') :
    removeReactions (s ++ rest) = s ++ removeReactions rest := by
  induction s with
  | nil => simp
  | cons c cs ih =>
    have hc : c ≠ '[' := h c (List.mem_cons_self c cs)
    have ih2 := ih (fun d hd => h d (List.mem_cons_of_mem c hd))
    rw [List.cons_append, rr_none (reactionAt_cons_ne _ hc), ih2, List.cons_append]

theorem rr_skipM (l rest : List Char) (h : ∀ c ∈ l, c ≠ '[') :
    removeReactions ('[' :: 'M' :: (l ++ rest))
      = '[' :: 'M' :: (l ++ removeReactions rest) := by
  rw [rr_none (reactionAt_brM _)]
  rw [show ('M' :: (l ++ rest)) = ('M' :: l) ++ rest from rfl]
  rw [rr_plain ('M' :: l) rest ?_]
  · rfl
  · intro c hc
    rcases List.mem_cons.mp hc with hc1 | hc2
    · subst hc1; decide
    · exact h c hc2

theorem mentionAt_cons_ne {c : Char} (l : List Char) (h : c ≠ '[') :
    mentionAt (c :: l) = none := by
  unfold mentionAt
  rw [show dropPre mentionPat (c :: l) = none from by simp [mentionPat, dropPre, h]]

theorem mentionAt_tok {id nm : List Char} (rest : List Char) (hid : id ≠ [])
    (hidc : ':' ∉ id) (hnm : nm ≠ []) (hnmc : ']' ∉ nm) :
    mentionAt (mentionPat ++ (id ++ ':' :: (nm ++ ']' :: rest))) = some (id, nm, rest) := by
  unfold mentionAt
  simp [dropPre_self, scanUntil_mk _ hidc, scanUntil_mk _ hnmc, List.isEmpty_iff, hid, hnm]

theorem mentionAt_allTok (rest : List Char) :
    mentionAt (mentionAllPat ++ rest) = none := by
  unfold mentionAt
  rw [show dropPre mentionPat (mentionAllPat ++ rest) = none from rfl]

theorem scanMentions_cons (c : Char) (l : List Char) :
    scanMentions (c :: l) = match mentionAt (c :: l) with
      | some (id, nm, rest) => ((scanMentions rest).1, (id, nm) :: (scanMentions rest).2)
      | none => (c :: (scanMentions l).1, (scanMentions l).2) := by
  rw [scanMentions]
  rcases hr : mentionAt (c :: l) with _ | ⟨id, nm, rest⟩ <;> simp [hr]

theorem sm_some {s : List Char} {id nm r : List Char} (h : mentionAt s = some (id, nm, r)) :
    scanMentions s = ((scanMentions r).1, (id, nm) :: (scanMentions r).2) := by
  cases s with
  | nil => simp [mentionAt, mentionPat, dropPre] at h
  | cons c cs => rw [scanMentions_cons, h]

theorem sm_none {c : Char} {l : List Char} (h : mentionAt (c :: l) = none) :
    scanMentions (c :: l) = (c :: (scanMentions l).1, (scanMentions l).2) := by
  rw [scanMentions_cons, h]

theorem sm_plain (s rest : List Char) (h : ∀ c ∈ s, c ≠ '[') :
    scanMentions (s ++ rest) = (s ++ (scanMentions rest).1, (scanMentions rest).2) := by
  induction s with
  | nil => simp
  | cons c cs ih =>
    have hc : c ≠ '[' := h c (List.mem_cons_self c cs)
    have ih2 := ih (fun d hd => h d (List.mem_cons_of_mem c hd))
    rw [List.cons_append, sm_none (mentionAt_cons_ne _ hc), ih2, List.cons_append]

theorem dropAllPat_cons_ne {c : Char} (l : List Char) (h : c ≠ '[') :
    dropPre mentionAllPat (c :: l) = none := by
  simp [mentionAllPat, dropPre, h]

theorem removeMentionAll_cons (c : Char) (l : List Char) :
    removeMentionAll (c :: l) = match dropPre mentionAllPat (c :: l) with
      | some rest => removeMentionAll rest
      | none => c :: removeMentionAll l := by
  rw [removeMentionAll]
  rcases hr : dropPre mentionAllPat (c :: l) with _ | rest <;> simp [hr]

theorem rma_tok (rest : List Char) :
    removeMentionAll (mentionAllPat ++ rest) = removeMentionAll rest := by
  rw [show mentionAllPat ++ rest
      = '[' :: ('M' :: 'E' :: 'N' :: 'T' :: 'I' :: 'O' :: 'N' :: '_' :: 'A' :: 'L' :: 'L' :: ']' :: rest)
    from rfl]
  rw [removeMentionAll_cons]
  rw [show dropPre mentionAllPat
      ('[' :: ('M' :: 'E' :: 'N' :: 'T' :: 'I' :: 'O' :: 'N' :: '_' :: 'A' :: 'L' :: 'L' :: ']' :: rest))
      = some rest from rfl]

theorem rma_none {c : Char} {l : List Char} (h : dropPre mentionAllPat (c :: l) = none) :
    removeMentionAll (c :: l) = c :: removeMentionAll l := by
  rw [removeMentionAll_cons, h]

theorem rma_plain (s rest : List Char) (h : ∀ c ∈ s, c ≠ '[') :
    removeMentionAll (s ++ rest) = s ++ removeMentionAll rest := by
  induction s with
  | nil => simp
  | cons c cs ih =>
    have hc : c ≠ '[' := h c (List.mem_cons_self c cs)
    have ih2 := ih (fun d hd => h d (List.mem_cons_of_mem c hd))
    rw [List.cons_append, rma_none (dropAllPat_cons_ne _ hc), ih2, List.cons_append]

theorem removeReactions_nil : removeReactions [] = [] := by rw [removeReactions]

theorem scanMentions_nil : scanMentions [] = ([], []) := by rw [scanMentions]

theorem removeMentionAll_nil : removeMentionAll [] = [] := by rw [removeMentionAll]

theorem rr_mentionTok (id nm rest : List Char) (hid : '[' ∉ id) (hnm : '[' ∉ nm) :
    removeReactions (mentionPat ++ (id ++ ':' :: (nm ++ ']' :: rest)))
      = mentionPat ++ (id ++ ':' :: (nm ++ ']' :: removeReactions rest)) := by
  have hconc : ∀ c ∈ (['E', 'N', 'T', 'I', 'O', 'N', ':'] : List Char), c ≠ '[' := by decide
  have hmem : ∀ c ∈ (['E', 'N', 'T', 'I', 'O', 'N', ':'] ++ (id ++ ':' :: (nm ++ [']']))),
      c ≠ '[' := by
    intro c hc
    rcases List.mem_append.mp hc with h1 | h2
    · exact hconc c h1
    · rcases List.mem_append.mp h2 with h3 | h4
      · exact fun he => hid (he ▸ h3)
      · rcases List.mem_cons.mp h4 with rfl | h5
        · decide
        · rcases List.mem_append.mp h5 with h6 | h7
          · exact fun he => hnm (he ▸ h6)
          · simp only [List.mem_singleton] at h7
            subst h7
            decide
  have hskip := rr_skipM (['E', 'N', 'T', 'I', 'O', 'N', ':'] ++ (id ++ ':' :: (nm ++ [']'])))
    rest hmem
  simpa [mentionPat] using hskip

theorem rr_mentionAllTok (rest : List Char) :
    removeReactions (mentionAllPat ++ rest) = mentionAllPat ++ removeReactions rest := by
  have hmem : ∀ c ∈ (['E', 'N', 'T', 'I', 'O', 'N', '_', 'A', 'L', 'L', ']'] : List Char),
      c ≠ '[' := by decide
  have hskip := rr_skipM ['E', 'N', 'T', 'I', 'O', 'N', '_', 'A', 'L', 'L', ']'] rest hmem
  simpa [mentionAllPat] using hskip

theorem sm_mentionAllTok (rest : List Char) :
    scanMentions (mentionAllPat ++ rest)
      = (mentionAllPat ++ (scanMentions rest).1, (scanMentions rest).2) := by
  have h0 := sm_none (c := '[')
    (l := ['M', 'E', 'N', 'T', 'I', 'O', 'N', '_', 'A', 'L', 'L', ']'] ++ rest)
    (mentionAt_allTok rest)
  have h1 := sm_plain ['M', 'E', 'N', 'T', 'I', 'O', 'N', '_', 'A', 'L', 'L', ']'] rest
    (by decide)
  rw [show mentionAllPat ++ rest
      = '[' :: (['M', 'E', 'N', 'T', 'I', 'O', 'N', '_', 'A', 'L', 'L', ']'] ++ rest)
    from by simp [mentionAllPat]]
  rw [h0, h1]
  simp [mentionAllPat]

/-- The first replace-all: every well-formed `[REACTION:...]` token is deleted
and everything else is left in place. -/
theorem pass_reactions (segs : List ReplySeg) (h : ∀ sg ∈ segs, SegOK sg) :
    removeReactions (renderSegsL segs)
      = renderSegsL (segs.filter (fun sg => !sg.isReaction)) := by
  induction segs with
  | nil => simp [renderSegsL, removeReactions_nil]
  | cons sg rest ih =>
    have hsg := h sg (List.mem_cons_self _ _)
    have ih2 := ih (fun d hd => h d (List.mem_cons_of_mem _ hd))
    cases sg with
    | plain s =>
      have hs : ∀ c ∈ s.toList, c ≠ '[' := fun c hc he => hsg (he ▸ hc)
      simp only [renderSegsL, ReplySeg.renderL]
      rw [rr_plain _ _ hs, ih2]
    | reaction ty =>
      obtain ⟨h1, h2⟩ := hsg
      simp only [renderSegsL, ReplySeg.renderL, List.append_assoc, List.singleton_append]
      rw [rr_some (reactionAt_tok _ h1 h2), ih2]
      simp [List.filter_cons, ReplySeg.isReaction]
    | mention id nm =>
      obtain ⟨h1, h2, h3, h4, h5, h6⟩ := hsg
      simp only [renderSegsL, ReplySeg.renderL, List.append_assoc, List.singleton_append,
        List.cons_append, List.nil_append]
      rw [rr_mentionTok _ _ _ h4 h6, ih2]
    | mentionAll =>
      simp only [renderSegsL, ReplySeg.renderL]
      rw [rr_mentionAllTok, ih2]

/-- The second pass: once reactions are gone, every well-formed
`[MENTION:id:name]` token is deleted and its submatches are collected in
order; everything else is left in place. -/
theorem pass_mentions (segs : List ReplySeg)
    (h : ∀ sg ∈ segs, SegOK sg ∧ sg.isReaction = false) :
    scanMentions (renderSegsL segs)
      = (renderSegsL (segs.filter (fun sg => !sg.isMention)), segsMentionPairs segs) := by
  induction segs with
  | nil => simp [renderSegsL, scanMentions_nil, segsMentionPairs]
  | cons sg rest ih =>
    obtain ⟨hok, hnr⟩ := h sg (List.mem_cons_self _ _)
    have ih2 := ih (fun d hd => h d (List.mem_cons_of_mem _ hd))
    cases sg with
    | plain s =>
      have hs : ∀ c ∈ s.toList, c ≠ '[' := fun c hc he => hok (he ▸ hc)
      simp only [renderSegsL, ReplySeg.renderL]
      rw [sm_plain _ _ hs, ih2]
      simp [List.filter_cons, ReplySeg.isMention, segsMentionPairs, renderSegsL,
        ReplySeg.renderL]
    | reaction ty =>
      simp [ReplySeg.isReaction] at hnr
    | mention id nm =>
      obtain ⟨h1, h2, h3, h4, h5, h6⟩ := hok
      simp only [renderSegsL, ReplySeg.renderL, List.append_assoc, List.singleton_append,
        List.cons_append, List.nil_append]
      rw [sm_some (mentionAt_tok _ h1 h3 h2 h5), ih2]
      simp [List.filter_cons, ReplySeg.isMention, segsMentionPairs]
    | mentionAll =>
      simp only [renderSegsL, ReplySeg.renderL]
      rw [sm_mentionAllTok, ih2]
      simp [List.filter_cons, ReplySeg.isMention, segsMentionPairs, renderSegsL,
        ReplySeg.renderL]

/-- The third pass: with reactions and mentions gone, every `[MENTION_ALL]`
token is deleted, leaving exactly the plain text. -/
theorem pass_mention_all (segs : List ReplySeg)
    (h : ∀ sg ∈ segs, SegOK sg ∧ sg.isReaction = false ∧ sg.isMention = false) :
    removeMentionAll (renderSegsL segs) = plainCharsL segs := by
  induction segs with
  | nil => simp [renderSegsL, removeMentionAll_nil, plainCharsL]
  | cons sg rest ih =>
    obtain ⟨hok, hnr, hnm⟩ := h sg (List.mem_cons_self _ _)
    have ih2 := ih (fun d hd => h d (List.mem_cons_of_mem _ hd))
    cases sg with
    | plain s =>
      have hs : ∀ c ∈ s.toList, c ≠ '[' := fun c hc he => hok (he ▸ hc)
      simp only [renderSegsL, ReplySeg.renderL, plainCharsL]
      rw [rma_plain _ _ hs, ih2]
    | reaction ty =>
      simp [ReplySeg.isReaction] at hnr
    | mention id nm =>
      simp [ReplySeg.isMention] at hnm
    | mentionAll =>
      simp only [renderSegsL, ReplySeg.renderL, plainCharsL]
      rw [rma_tok, ih2]

theorem strMk_toList (s : String) : String.mk s.toList = s := by
  cases s
  rfl

theorem plain_after_filters (segs : List ReplySeg) :
    plainCharsL ((segs.filter (fun sg => !sg.isReaction)).filter (fun sg => !sg.isMention))
      = plainCharsL segs := by
  induction segs with
  | nil => rfl
  | cons sg rest ih =>
    cases sg with
    | plain s => exact congrArg (fun t => s.toList ++ t) ih
    | reaction ty => exact ih
    | mention id nm => exact ih
    | mentionAll => exact ih

theorem mentions_after_filter (segs : List ReplySeg) :
    (segsMentionPairs (segs.filter (fun sg => !sg.isReaction))).map
        (fun p => ({ UserID := String.mk p.1, Name := String.mk p.2 } : Member))
      = segsMentions segs := by
  induction segs with
  | nil => rfl
  | cons sg rest ih =>
    cases sg with
    | plain s => exact ih
    | reaction ty => exact ih
    | mention id nm =>
      exact congrArg (fun t => ({ UserID := id, Name := nm } : Member) :: t) ih
    | mentionAll => exact ih

theorem dropLeadSpaces_split (l : List Char) :
    ∃ lead, (∀ c ∈ lead, goIsSpace c = true) ∧ l = lead ++ dropLeadSpaces l := by
  induction l with
  | nil => exact ⟨[], by simp, by simp [dropLeadSpaces]⟩
  | cons c cs ih =>
    by_cases hc : goIsSpace c
    · obtain ⟨lead, hl1, hl2⟩ := ih
      refine ⟨c :: lead, ?_, ?_⟩
      · intro d hd
        rcases List.mem_cons.mp hd with rfl | hd2
        · exact hc
        · exact hl1 d hd2
      · simp [dropLeadSpaces, hc]
        exact hl2
    · exact ⟨[], by simp, by simp [dropLeadSpaces, hc]⟩

theorem goTrimSpace_split (l : List Char) :
    ∃ lead trail, (∀ c ∈ lead, goIsSpace c = true) ∧ (∀ c ∈ trail, goIsSpace c = true) ∧
      l = lead ++ goTrimSpace l ++ trail := by
  obtain ⟨lead, hl1, hl2⟩ := dropLeadSpaces_split l
  obtain ⟨lead2, hm1, hm2⟩ := dropLeadSpaces_split (dropLeadSpaces l).reverse
  refine ⟨lead, lead2.reverse, hl1, ?_, ?_⟩
  · intro c hc
    exact hm1 c (List.mem_reverse.mp hc)
  · have h3 : dropLeadSpaces l
        = (dropLeadSpaces (dropLeadSpaces l).reverse).reverse ++ lead2.reverse := by
      have h4 := congrArg List.reverse hm2
      simpa [List.reverse_append] using h4
    conv_lhs => rw [hl2, h3]
    unfold goTrimSpace
    simp [List.append_assoc]

/-- C4: a backend reply decomposed into plain text and well-formed directive
tokens parses to exactly the plain text (every directive token stripped in
place, then trimmed only at the ends) paired with the mention directives'
members in order of appearance; trimming only ever removes white space from
the two ends of the stripped text; and on the claim's concrete input the
result is exactly `"Hi  and !  Nice."` with mentions `(u1, Alice), (u2, Bob)`. -/
theorem parse_response_strips_directives :
    (∀ (segs : List ReplySeg), (∀ sg ∈ segs, SegOK sg) →
      parseResponse (renderSegs segs)
        = (goTrimSpaceStr (String.mk (plainCharsL segs)), segsMentions segs)) ∧
    (∀ (l : List Char), ∃ lead trail,
      (∀ c ∈ lead, goIsSpace c = true) ∧ (∀ c ∈ trail, goIsSpace c = true) ∧
      l = lead ++ goTrimSpace l ++ trail) ∧
    parseResponse "Hi [MENTION:u1:Alice] and [MENTION:u2:Bob]! [REACTION:THUMBSUP] Nice."
      = ("Hi  and !  Nice.",
         [{ UserID := "u1", Name := "Alice" }, { UserID := "u2", Name := "Bob" }]) := by
  have hmain : ∀ (segs : List ReplySeg), (∀ sg ∈ segs, SegOK sg) →
      parseResponse (renderSegs segs)
        = (goTrimSpaceStr (String.mk (plainCharsL segs)), segsMentions segs) := by
    intro segs h
    have hseg1 : ∀ sg ∈ segs.filter (fun sg => !sg.isReaction),
        SegOK sg ∧ sg.isReaction = false := by
      intro sg hsg
      rw [List.mem_filter] at hsg
      exact ⟨h sg hsg.1, by simpa using hsg.2⟩
    have hseg2 : ∀ sg ∈ (segs.filter (fun sg => !sg.isReaction)).filter
        (fun sg => !sg.isMention),
        SegOK sg ∧ sg.isReaction = false ∧ sg.isMention = false := by
      intro sg hsg
      rw [List.mem_filter] at hsg
      exact ⟨(hseg1 sg hsg.1).1, (hseg1 sg hsg.1).2, by simpa using hsg.2⟩
    simp only [parseResponse]
    rw [show (renderSegs segs).toList = renderSegsL segs from rfl]
    rw [pass_reactions segs h]
    rw [pass_mentions _ hseg1]
    dsimp only
    rw [pass_mention_all _ hseg2, plain_after_filters, mentions_after_filter]
    rfl
  refine ⟨hmain, goTrimSpace_split, ?_⟩
  have hex := hmain
    [ .plain "Hi ", .mention "u1" "Alice", .plain " and ", .mention "u2" "Bob",
      .plain "! ", .reaction "THUMBSUP", .plain " Nice." ]
    (by
      intro sg hsg
      simp only [List.mem_cons, List.not_mem_nil, or_false] at hsg
      rcases hsg with rfl | rfl | rfl | rfl | rfl | rfl | rfl <;> simp [SegOK])
  rw [show renderSegs
      [ .plain "Hi ", .mention "u1" "Alice", .plain " and ", .mention "u2" "Bob",
        .plain "! ", .reaction "THUMBSUP", .plain " Nice." ]
      = "Hi [MENTION:u1:Alice] and [MENTION:u2:Bob]! [REACTION:THUMBSUP] Nice."
    from by decide] at hex
  rw [hex]
  rfl

/-- Witness for the directive-stripping theorem at a concrete input with all
three directive forms present. -/
theorem parse_response_strips_directives_witness :
    parseResponse "Go [REACTION:HEART]now [MENTION:u9:Zoe] [MENTION_ALL]"
      = ("Go now", [{ UserID := "u9", Name := "Zoe" }]) := by
  have h := parse_response_strips_directives.1
    [ReplySeg.plain "Go ", ReplySeg.reaction "HEART", ReplySeg.plain "now ",
     ReplySeg.mention "u9" "Zoe", ReplySeg.plain " ", ReplySeg.mentionAll]
    (by
      intro sg hsg
      simp only [List.mem_cons, List.not_mem_nil, or_false] at hsg
      rcases hsg with rfl | rfl | rfl | rfl | rfl | rfl <;> simp [SegOK])
  rw [show renderSegs
      [ReplySeg.plain "Go ", ReplySeg.reaction "HEART", ReplySeg.plain "now ",
       ReplySeg.mention "u9" "Zoe", ReplySeg.plain " ", ReplySeg.mentionAll]
      = "Go [REACTION:HEART]now [MENTION:u9:Zoe] [MENTION_ALL]" from rfl] at h
  rw [h]
  rfl

/-- A text none of whose suffixes opens a reaction match passes the first
replace-all unchanged. -/
theorem rr_id (s : List Char) (h : ∀ n, n ≤ s.length → reactionAt (s.drop n) = none) :
    removeReactions s = s := by
  induction s with
  | nil => exact removeReactions_nil
  | cons c cs ih =>
    rw [rr_none (h 0 (by omega))]
    rw [ih (fun n hn => h (n + 1) (by simpa using Nat.succ_le_succ hn))]

/-- A text none of whose suffixes opens a mention match passes the second
pass unchanged, contributing no mention. -/
theorem sm_id (s : List Char) (h : ∀ n, n ≤ s.length → mentionAt (s.drop n) = none) :
    scanMentions s = (s, []) := by
  induction s with
  | nil => exact scanMentions_nil
  | cons c cs ih =>
    rw [sm_none (h 0 (by omega))]
    rw [ih (fun n hn => h (n + 1) (by simpa using Nat.succ_le_succ hn))]

/-- A text none of whose suffixes starts with `[MENTION_ALL]` passes the
third replace-all unchanged. -/
theorem rma_id (s : List Char)
    (h : ∀ n, n ≤ s.length → dropPre mentionAllPat (s.drop n) = none) :
    removeMentionAll s = s := by
  induction s with
  | nil => exact removeMentionAll_nil
  | cons c cs ih =>
    rw [rma_none (h 0 (by omega))]
    rw [ih (fun n hn => h (n + 1) (by simpa using Nat.succ_le_succ hn))]

/-- C9: malformed directives match none of the parser's patterns: on the
input `"ok [REACTION:] x [MENTION:id] y"` - an empty reaction type and a
mention missing its second colon - the reply text is returned verbatim and
no mention is extracted. -/
theorem malformed_directives_left_verbatim :
    parseResponse "ok [REACTION:] x [MENTION:id] y"
      = ("ok [REACTION:] x [MENTION:id] y", []) := by
  simp only [parseResponse]
  rw [rr_id "ok [REACTION:] x [MENTION:id] y".toList (by decide)]
  rw [sm_id "ok [REACTION:] x [MENTION:id] y".toList (by decide)]
  dsimp only
  rw [rma_id "ok [REACTION:] x [MENTION:id] y".toList (by decide)]
  rfl

/-- C5: on a completed turn whose buffered output carries
`[REACTION:THUMBSUP]`, the service sends exactly the fixed `DONE` reaction:
`parseResponse` strips the token but discards its type, so no `THUMBSUP`
reaction is ever passed to `AddReaction`. -/
theorem reaction_type_discarded_only_done_sent :
    turnCompleteReactions "[REACTION:THUMBSUP] Nice." = ["DONE"] ∧
    "THUMBSUP" ∉ turnCompleteReactions "[REACTION:THUMBSUP] Nice." ∧
    parseResponse "[REACTION:THUMBSUP] Nice." = ("Nice.", []) := by
  refine ⟨rfl, by decide, ?_⟩
  simp only [parseResponse]
  rw [show "[REACTION:THUMBSUP] Nice.".toList
      = reactionPat ++ ("THUMBSUP".toList ++ ']' :: " Nice.".toList) from rfl]
  rw [rr_some (reactionAt_tok _ (by decide) (by decide))]
  rw [rr_id " Nice.".toList (by decide)]
  rw [sm_id " Nice.".toList (by decide)]
  dsimp only
  rw [rma_id " Nice.".toList (by decide)]
  rfl

/-- C6 counterexample: `Processing` is cleared when the asynchronous
turn-start returns, not when the turn completes.  In the trace "accept m1;
trigger for m1 returns; m2 arrives" - with no TurnComplete anywhere - the
state already has `Processing = false` after the trigger returns, the second
message is accepted rather than rejected as busy, and a turn-complete event
on a processing chat leaves `Processing` untouched instead of clearing it. -/
theorem processing_not_held_until_turn_complete :
    (runChat {} [ChatEvent.handleMessage "m1", ChatEvent.triggerReturn true "t1" "u1"]).1.Processing
      = false ∧
    (runChat {} [ChatEvent.handleMessage "m1", ChatEvent.triggerReturn true "t1" "u1",
        ChatEvent.handleMessage "m2"]).2
      = [ChatOutcome.accepted, ChatOutcome.noOutput, ChatOutcome.accepted] ∧
    (stepChat { ThreadID := "t1", MsgID := "m1", Processing := true, Buffer := "hi" }
        (ChatEvent.turnComplete "t1")).1.Processing = true := by
  refine ⟨rfl, rfl, rfl⟩

/-- C6 (amended): per chat, `Processing` guards exactly the span from
acceptance to the return of the turn-start call: while it is set a second
`HandleMessage` is rejected as busy without touching the state, acceptance
sets it together with the message id and a fresh buffer, the trigger return
clears it whether or not the turn-start succeeded, and neither deltas nor
turn completion change it (turn completion changes nothing at all). -/
theorem processing_guards_trigger_phase (st : ChatState) (m : String) :
    (st.Processing = true → stepChat st (ChatEvent.handleMessage m) = (st, .busyError)) ∧
    (st.Processing = false → stepChat st (ChatEvent.handleMessage m)
      = ({ st with Processing := true, MsgID := m, Buffer := "" }, .accepted)) ∧
    (∀ ok t u, (stepChat st (ChatEvent.triggerReturn ok t u)).1.Processing = false) ∧
    (∀ t d, (stepChat st (ChatEvent.agentDelta t d)).1.Processing = st.Processing) ∧
    (∀ t, (stepChat st (ChatEvent.turnComplete t)).1 = st) := by
  refine ⟨fun h => by simp [stepChat, h], fun h => by simp [stepChat, h], ?_, ?_, ?_⟩
  · intro ok t u
    cases ok <;> simp [stepChat]
  · intro t d
    by_cases h : st.ThreadID = t <;> simp [stepChat, h]
  · intro t
    by_cases h : st.ThreadID = t
    · by_cases hb : st.Buffer = "" <;> simp [stepChat, h, hb]
    · simp [stepChat, h]

/-- Witness for the amended turn-serialization behaviour at concrete states:
a busy chat rejects, an idle chat accepts. -/
theorem processing_guards_trigger_phase_witness :
    stepChat { Processing := true } (ChatEvent.handleMessage "m2")
      = ({ Processing := true }, .busyError) ∧
    stepChat {} (ChatEvent.handleMessage "m1")
      = ({ Processing := true, MsgID := "m1" }, .accepted) := by
  constructor
  · exact (processing_guards_trigger_phase { Processing := true } "m2").1 rfl
  · exact (processing_guards_trigger_phase {} "m1").2.1 rfl

/-- C7: with no classifier configured the hourly digest never reaches the
backend: the scheduler skips its own filter step and hands the synthetic
digest request - a group-chat request without a bot mention - to
`HandleMessage`, whose gate drops it ("No filter, skipping non-@ group
message") while the scheduler still marks every buffered message processed,
contradicting "digested unconditionally". -/
theorem digest_dropped_when_classifier_absent :
    (∀ (schedulerFilterSays handleFilterSays busy : Bool) (chatID prompt : String) (ts : Int),
      processWithCodex false schedulerFilterSays handleFilterSays busy chatID prompt ts
        = (.droppedByGate, true)) ∧
    (∀ filterSays : Bool,
      handleMessageGate false filterSays ChatType.group false = .skippedNoFilter) ∧
    (schedulerDigestRequest "c1" "[Scheduled Digest Task]" 0).ChatType = ChatType.group ∧
    (schedulerDigestRequest "c1" "[Scheduled Digest Task]" 0).MentionsBot = false := by
  refine ⟨?_, fun filterSays => rfl, rfl, rfl⟩
  intro schedulerFilterSays handleFilterSays busy chatID prompt ts
  simp [processWithCodex, handleMessageGate, schedulerDigestRequest]

/-- C8 counterexample: at the exact reset instant the code is strictly
one-sided.  With the idle check disabled, `ResetHour = 4`, `now` exactly
04:00 of day 0 and `UpdatedAt` before it, `Session.IsFresh` returns `true`
(Go's `now.After(resetTime)` is strict) while the claim's
`now ≥ today_reset ∧ updated_at < today_reset → stale` rule returns `false`. -/
theorem freshness_boundary_counterexample :
    Session.IsFresh { UpdatedAt := 0 } { IdleTimeout := 0, ResetHour := 4 } 0 240 = true ∧
    isFreshSpecClaim { IdleTimeout := 0, ResetHour := 4 } 0 240 0 = false ∧
    Session.IsFresh { UpdatedAt := 0 } { IdleTimeout := 0, ResetHour := 4 } 0 240
      ≠ isFreshSpecClaim { IdleTimeout := 0, ResetHour := 4 } 0 240 0 := by
  refine ⟨?_, ?_, ?_⟩ <;> decide

/-- C8 (amended): freshness is decided exactly by the two stated conditions
with the first daily-reset comparison strict - stale iff idle beyond a
positive `IdleTimeout`, or, with `ResetHour` in `[0, 23]`, `now` strictly
after today's reset with `UpdatedAt` before it, or `now` before today's reset
with `UpdatedAt` more than 24 hours behind it; otherwise fresh. -/
theorem freshness_matches_amended_rule (s : Session) (cfg : SessionConfig)
    (nowDay nowMin : Int) :
    s.IsFresh cfg nowDay nowMin = isFreshSpecAmended cfg nowDay nowMin s.UpdatedAt := by
  simp only [Session.IsFresh, isFreshSpecAmended]
  by_cases hA : cfg.IdleTimeout > 0 ∧ nowDay * 1440 + nowMin - s.UpdatedAt > cfg.IdleTimeout
  · simp [hA]
  · by_cases hR : 0 ≤ cfg.ResetHour ∧ cfg.ResetHour < 24
    · by_cases hB : nowDay * 1440 + nowMin > nowDay * 1440 + cfg.ResetHour * 60 ∧
          s.UpdatedAt < nowDay * 1440 + cfg.ResetHour * 60
      · simp [hA, hR, hB]
      · by_cases hC : nowDay * 1440 + nowMin < nowDay * 1440 + cfg.ResetHour * 60 ∧
            s.UpdatedAt < nowDay * 1440 + cfg.ResetHour * 60 - 1440
        · simp [hA, hR, hB, hC]
        · simp [hA, hR, hB, hC]
    · have hR2 : ¬(0 ≤ cfg.ResetHour ∧ cfg.ResetHour < 24 ∧
          ((nowDay * 1440 + nowMin > nowDay * 1440 + cfg.ResetHour * 60 ∧
            s.UpdatedAt < nowDay * 1440 + cfg.ResetHour * 60) ∨
           (nowDay * 1440 + nowMin < nowDay * 1440 + cfg.ResetHour * 60 ∧
            s.UpdatedAt < nowDay * 1440 + cfg.ResetHour * 60 - 1440))) := by
        intro hcon
        exact hR ⟨hcon.1, hcon.2.1⟩
      simp [hA, hR, hR2]
      omega

end Bridge

